import Mathlib

/-!
Verification of the blank-page filter and filename derivation of `app.py`.

The program strips blank back-facing pages from scanned PDF documents:
`is_blank_page` renders a page at 2x magnification, converts it to
single-channel luminance and classifies it blank when the fraction of
pixels with luminance below 250 is strictly below a threshold (default
0.01); the main loop keeps every even-indexed ("front") page and keeps an
odd-indexed ("back") page only when it is not blank.  `get_smart_name`
sanitizes the first line of an AI response, and the caller falls back to
the upload's name with `.pdf` removed when that call fails.

Pages are embedded by their rendered pixel grids: the PyMuPDF rendering
call is external, so a `Page` carries the luminance grid that
`get_pixmap(matrix=fitz.Matrix(2, 2))` followed by `convert('L')` would
produce (rows of 0..255 luminance samples), plus the 3x grid used by the
naming snapshot.  Real-number division is embedded in `ℚ`.
-/

namespace App

/-- The embedding of a document page: its rendered single-channel luminance
grids at the two magnifications the program uses (2x for blank detection,
3x for the AI naming snapshot).  Each grid is a list of rows of 0..255
luminance samples. -/
structure Page where
  pixmap2x : List (List Nat)
  pixmap3x : List (List Nat)
deriving DecidableEq

/-- Default page used only as the out-of-range value of `List.getD`. -/
def defaultPage : Page := ⟨[], []⟩

/-- Total number of samples of a pixel grid (`img_array.size` in the source). -/
def gridSize (g : List (List Nat)) : Nat :=
  (g.map List.length).sum

/-- Number of samples with luminance strictly below 250
(`np.sum(img_array < 250)` in the source). -/
def nonWhiteCount (g : List (List Nat)) : Nat :=
  (g.map (fun row => row.countP (fun v => decide (v < 250)))).sum

/-- Embedding of `is_blank_page(page, threshold)` from `app.py`:
`non_white_pixels = np.sum(img_array < 250)` and the page is blank iff
`non_white_pixels / img_array.size < threshold`. -/
def is_blank_page (page : Page) (threshold : ℚ) : Bool :=
  decide ((nonWhiteCount page.pixmap2x : ℚ) / (gridSize page.pixmap2x : ℚ) < threshold)

/-- The default threshold `0.01` of `is_blank_page`. -/
def defaultThreshold : ℚ := 1 / 100

/-- Embedding of the blank-filter loop of `app.py`, carrying the loop index:
for each page, if the index is even the page is appended unconditionally;
otherwise it is appended only if `is_blank_page` (at the default threshold)
is false.  Each kept page is paired with its original index. -/
def filterBlanksIdx : Nat → List Page → List (Nat × Page)
  | _, [] => []
  | i, p :: rest =>
    if i % 2 = 0 then
      (i, p) :: filterBlanksIdx (i + 1) rest
    else if !(is_blank_page p defaultThreshold) then
      (i, p) :: filterBlanksIdx (i + 1) rest
    else
      filterBlanksIdx (i + 1) rest

/-- The filtered output document: the pages kept by the blank-filter loop,
in loop order. -/
def filterBlanks (doc : List Page) : List Page :=
  (filterBlanksIdx 0 doc).map Prod.snd

/-- The original indices of the pages kept by the blank-filter loop. -/
def keptIndices (doc : List Page) : List Nat :=
  (filterBlanksIdx 0 doc).map Prod.fst

/-- The reference computation of the spec for blank detection, written from
its words: count the samples of the 2x render whose luminance is strictly
below 250 as non-white, and return blank iff the ratio of non-white samples
to total samples is strictly less than the threshold. -/
def is_blank_spec (page : Page) (threshold : ℚ) : Bool :=
  decide (((page.pixmap2x.flatten.countP (fun v => decide (v < 250)) : ℚ) /
    (page.pixmap2x.flatten.length : ℚ)) < threshold)

/-- The retention predicate of the blank-filter loop applied to an
index-page pair: keep iff the index is even or the page is not blank. -/
def keepPage (pr : Nat × Page) : Bool :=
  (pr.1 % 2 == 0) || !(is_blank_page pr.2 defaultThreshold)

lemma filterBlanksIdx_eq_filter (doc : List Page) :
    ∀ k, filterBlanksIdx k doc = (List.enumFrom k doc).filter keepPage := by
  induction doc with
  | nil => intro k; rfl
  | cons p rest ih =>
    intro k
    by_cases hk : k % 2 = 0
    · simp [filterBlanksIdx, keepPage, hk, ih, List.filter_cons]
    · by_cases hb : is_blank_page p defaultThreshold
      · simp [filterBlanksIdx, keepPage, hk, hb, ih, List.filter_cons]
      · simp [filterBlanksIdx, keepPage, hk, hb, ih, List.filter_cons]

lemma mem_filterBlanksIdx {k i : Nat} {p : Page} {doc : List Page} :
    (i, p) ∈ filterBlanksIdx k doc ↔
      k ≤ i ∧ doc[i - k]? = some p ∧
        (i % 2 = 0 ∨ is_blank_page p defaultThreshold = false) := by
  rw [filterBlanksIdx_eq_filter, List.mem_filter,
    List.mk_mem_enumFrom_iff_le_and_getElem?_sub, keepPage]
  simp [and_assoc, Bool.not_eq_true', Nat.beq_eq]

lemma mem_keptIndices {i : Nat} {doc : List Page} :
    i ∈ keptIndices doc ↔
      ∃ h : i < doc.length,
        i % 2 = 0 ∨ is_blank_page (doc.get ⟨i, h⟩) defaultThreshold = false := by
  unfold keptIndices
  rw [List.mem_map]
  constructor
  · rintro ⟨⟨j, p⟩, hmem, rfl⟩
    rw [mem_filterBlanksIdx] at hmem
    obtain ⟨-, hget, hkeep⟩ := hmem
    simp only [Nat.sub_zero] at hget
    have hlt : j < doc.length := by
      by_contra hge
      rw [List.getElem?_eq_none (by omega)] at hget
      exact Option.noConfusion hget
    refine ⟨hlt, ?_⟩
    rw [List.getElem?_eq_getElem hlt, Option.some_inj] at hget
    simpa [List.get_eq_getElem, hget] using hkeep
  · rintro ⟨hlt, hkeep⟩
    refine ⟨(i, doc.get ⟨i, hlt⟩), ?_, rfl⟩
    rw [mem_filterBlanksIdx]
    exact ⟨Nat.zero_le i,
      by simp [List.getElem?_eq_getElem hlt, List.get_eq_getElem], hkeep⟩

/-- C4: `is_blank_page` agrees with the spec's reference computation on the
same 2x luminance grid: count samples of luminance strictly below 250,
blank iff the fraction of such samples is strictly below the threshold. -/
theorem is_blank_page_eq_spec (p : Page) (t : ℚ) :
    is_blank_page p t = is_blank_spec p t := by
  simp [is_blank_page, is_blank_spec, nonWhiteCount, gridSize,
    List.countP_flatten, List.length_flatten]

/-- C5: a page whose non-white fraction is exactly the threshold is
classified non-blank, because the detector compares with strict
less-than. -/
theorem exact_threshold_not_blank (p : Page) (t : ℚ)
    (h : (nonWhiteCount p.pixmap2x : ℚ) / (gridSize p.pixmap2x : ℚ) = t) :
    is_blank_page p t = false := by
  simp [is_blank_page, h]

/-- Page whose 2x render has exactly one non-white sample out of 100. -/
def boundaryPage : Page :=
  ⟨[0 :: List.replicate 99 255], []⟩

/-- Witness for C5: the boundary page's non-white fraction is exactly the
default threshold 1/100, and the detector classifies it non-blank. -/
theorem exact_threshold_not_blank_witness :
    (nonWhiteCount boundaryPage.pixmap2x : ℚ) /
        (gridSize boundaryPage.pixmap2x : ℚ) = defaultThreshold ∧
      is_blank_page boundaryPage defaultThreshold = false := by
  have h1 : nonWhiteCount boundaryPage.pixmap2x = 1 := by decide
  have h2 : gridSize boundaryPage.pixmap2x = 100 := by decide
  have h : (nonWhiteCount boundaryPage.pixmap2x : ℚ) /
      (gridSize boundaryPage.pixmap2x : ℚ) = defaultThreshold := by
    rw [h1, h2, defaultThreshold]; norm_num
  exact ⟨h, exact_threshold_not_blank boundaryPage defaultThreshold h⟩

/-- C6: filtering the empty document yields the empty document (the loop
body never runs; no error). -/
theorem filter_empty_doc : filterBlanks [] = [] := rfl

/-- C8: the blankness decision is a function of the rendered 2x content and
the threshold alone: two pages with identical rendered content get the same
decision. -/
theorem is_blank_deterministic (p q : Page) (t : ℚ)
    (h : p.pixmap2x = q.pixmap2x) :
    is_blank_page p t = is_blank_page q t := by
  simp [is_blank_page, h]

/-- Fully white page whose 3x naming snapshot carries one mark. -/
def whitePageA : Page := ⟨[[255, 255], [255, 255]], [[0]]⟩

/-- Fully white page whose 3x naming snapshot is empty. -/
def whitePageB : Page := ⟨[[255, 255], [255, 255]], []⟩

/-- Witness for C8: two pages equal in 2x render but different elsewhere
receive the same blankness decision. -/
theorem is_blank_deterministic_witness :
    whitePageA.pixmap2x = whitePageB.pixmap2x ∧
      is_blank_page whitePageA defaultThreshold =
        is_blank_page whitePageB defaultThreshold :=
  ⟨rfl, is_blank_deterministic whitePageA whitePageB defaultThreshold rfl⟩

/-- C1: an odd-indexed ("back") page is kept iff the blank detector at the
default threshold 0.01 returns false for it. -/
theorem back_kept_iff_not_blank (doc : List Page) (i : Nat)
    (h : i < doc.length) (hodd : i % 2 = 1) :
    i ∈ keptIndices doc ↔
      is_blank_page (doc.get ⟨i, h⟩) defaultThreshold = false := by
  rw [mem_keptIndices]
  constructor
  · rintro ⟨h', hkeep⟩
    rcases hkeep with heven | hblank
    · omega
    · exact hblank
  · intro hblank
    exact ⟨h, Or.inr hblank⟩

/-- Page with every 2x sample at luminance 0 (fully inked). -/
def inkPage : Page := ⟨[[0, 0], [0, 0]], []⟩

/-- Two-page document whose back page is fully white. -/
def pairDoc : List Page := [inkPage, whitePageB]

/-- Witness for C1: in the two-page document with a white back, index 1 is
odd and in range, and the equivalence instantiates there. -/
theorem back_kept_iff_not_blank_witness :
    1 < pairDoc.length ∧ 1 % 2 = 1 ∧
      ((1 : Nat) ∈ keptIndices pairDoc ↔
        is_blank_page (pairDoc.get ⟨1, by decide⟩) defaultThreshold = false) :=
  ⟨by decide, rfl, back_kept_iff_not_blank pairDoc 1 (by decide) rfl⟩

/-- C3: an even-indexed ("front") page is always kept, regardless of
blankness. -/
theorem front_always_kept (doc : List Page) (i : Nat)
    (h : i < doc.length) (heven : i % 2 = 0) :
    i ∈ keptIndices doc := by
  rw [mem_keptIndices]
  exact ⟨h, Or.inl heven⟩

/-- Witness for C3: index 0 of the two-page document is even, in range, and
kept. -/
theorem front_always_kept_witness :
    0 < pairDoc.length ∧ 0 % 2 = 0 ∧ (0 : Nat) ∈ keptIndices pairDoc :=
  ⟨by decide, rfl, front_always_kept pairDoc 0 (by decide) rfl⟩

lemma filterBlanksIdx_sublist_enumFrom (doc : List Page) (k : Nat) :
    (filterBlanksIdx k doc).Sublist (List.enumFrom k doc) := by
  rw [filterBlanksIdx_eq_filter]
  exact List.filter_sublist _

/-- C2: the output is a strictly order-preserving subsequence of the input:
the output page list is a sublist of the input, the kept original indices
are strictly increasing and in range, and the output is exactly the input
pages read off at the kept indices (no reordering, duplication or
insertion). -/
theorem output_subsequence (doc : List Page) :
    (filterBlanks doc).Sublist doc ∧
      (keptIndices doc).Pairwise (· < ·) ∧
      (∀ i ∈ keptIndices doc, i < doc.length) ∧
      filterBlanks doc =
        (keptIndices doc).map (fun i => doc.getD i defaultPage) := by
  have hsub := filterBlanksIdx_sublist_enumFrom doc 0
  have hfst : (keptIndices doc).Sublist (List.range' 0 doc.length) := by
    have := hsub.map Prod.fst
    rwa [List.enumFrom_map_fst] at this
  refine ⟨?_, ?_, ?_, ?_⟩
  · have := hsub.map Prod.snd
    rwa [List.enumFrom_map_snd] at this
  · exact (List.pairwise_lt_range' 0 doc.length).sublist hfst
  · intro i hi
    have := hfst.subset hi
    rw [List.mem_range'_1] at this
    omega
  · unfold filterBlanks keptIndices
    rw [List.map_map]
    apply List.map_congr_left
    rintro ⟨j, p⟩ hmem
    rw [mem_filterBlanksIdx] at hmem
    obtain ⟨-, hget, -⟩ := hmem
    simp only [Nat.sub_zero] at hget
    simp [List.getD_eq_getElem?_getD, hget]

/-- Witness for C2: the subsequence properties instantiated on the concrete
two-page document, with the index bound taken at the kept index 0. -/
theorem output_subsequence_witness :
    (filterBlanks pairDoc).Sublist pairDoc ∧
      (keptIndices pairDoc).Pairwise (· < ·) ∧
      (0 : Nat) < pairDoc.length ∧
      filterBlanks pairDoc =
        (keptIndices pairDoc).map (fun i => pairDoc.getD i defaultPage) := by
  have h0 : (0 : Nat) ∈ keptIndices pairDoc := by
    simp [keptIndices, pairDoc, filterBlanksIdx]
  exact ⟨(output_subsequence pairDoc).1, (output_subsequence pairDoc).2.1,
    (output_subsequence pairDoc).2.2.1 0 h0, (output_subsequence pairDoc).2.2.2⟩

/-- C7: a document all of whose indices are even (hence with at most one
page) passes through the filter unchanged in content and order. -/
theorem fronts_only_identity (doc : List Page)
    (h : ∀ i, i < doc.length → i % 2 = 0) :
    filterBlanks doc = doc := by
  match doc with
  | [] => rfl
  | [p] => rfl
  | p :: q :: rest =>
    have h1 := h 1 (by simp)
    omega

/-- One-page document consisting of the inked page. -/
def singleDoc : List Page := [inkPage]

/-- Witness for C7: the one-page document has only even indices and is
returned unchanged. -/
theorem fronts_only_identity_witness :
    filterBlanks singleDoc = singleDoc :=
  fronts_only_identity singleDoc (by
    intro i hi
    simp only [singleDoc, List.length_cons, List.length_nil] at hi
    omega)

lemma filterBlanksIdx_length_le (doc : List Page) :
    ∀ k, (filterBlanksIdx k doc).length ≤ doc.length := by
  induction doc with
  | nil => intro k; simp [filterBlanksIdx]
  | cons p rest ih =>
    intro k
    unfold filterBlanksIdx
    split
    · simpa using Nat.succ_le_succ (ih (k + 1))
    · split
      · simpa using Nat.succ_le_succ (ih (k + 1))
      · exact Nat.le_succ_of_le (ih (k + 1))

lemma filterBlanksIdx_length_ge (doc : List Page) :
    ∀ k, (if k % 2 = 0 then (doc.length + 1) / 2 else doc.length / 2) ≤
      (filterBlanksIdx k doc).length := by
  induction doc with
  | nil => intro k; simp [filterBlanksIdx]
  | cons p rest ih =>
    intro k
    have hrec := ih (k + 1)
    unfold filterBlanksIdx
    by_cases hk : k % 2 = 0
    · have hk1 : ¬ (k + 1) % 2 = 0 := by omega
      rw [if_neg hk1] at hrec
      simp only [if_pos hk, List.length_cons]
      omega
    · have hk1 : (k + 1) % 2 = 0 := by omega
      rw [if_pos hk1] at hrec
      simp only [if_neg hk]
      split
      · simp only [List.length_cons]
        omega
      · simp only [List.length_cons]
        omega

/-- C10: the output page count is between the number of front pages,
`ceil(n/2) = (n+1)/2`, and the input page count `n`. -/
theorem output_length_bounds (doc : List Page) :
    (doc.length + 1) / 2 ≤ (filterBlanks doc).length ∧
      (filterBlanks doc).length ≤ doc.length := by
  have hge := filterBlanksIdx_length_ge doc 0
  rw [if_pos (by omega)] at hge
  have hle := filterBlanksIdx_length_le doc 0
  constructor
  · simpa [filterBlanks] using hge
  · simpa [filterBlanks] using hle

/-- The characters removed by the sanitization step of `get_smart_name`
(the regex class in `re.sub(r'[\\/:*?"<>|]', '', ...)`). -/
def illegalChars : List Char :=
  ['\\', '/', ':', '*', '?', '"', '<', '>', '|']

/-- Embedding of Python's `str.strip()`: drop leading and trailing
whitespace. -/
def pyStrip (s : List Char) : List Char :=
  (((s.dropWhile Char.isWhitespace).reverse).dropWhile Char.isWhitespace).reverse

/-- Embedding of `s.split('\n')[0]`: the text up to the first newline. -/
def firstLine (s : List Char) : List Char :=
  s.takeWhile (fun c => !(c == '\n'))

/-- Embedding of the sanitization of `get_smart_name` on a successful AI
response `text`: `re.sub(r'[\\/:*?"<>|]', '', text.strip().split('\n')[0])`. -/
def sanitizeName (text : List Char) : List Char :=
  (firstLine (pyStrip text)).filter (fun c => !(illegalChars.contains c))

/-- Embedding of `get_smart_name`: the AI call either raises (modelled as
`none`, the `except` branch returns `None`) or yields response text, whose
first stripped line is sanitized. -/
def get_smart_name (response : Option (List Char)) : Option (List Char) :=
  match response with
  | some text => some (sanitizeName text)
  | none => none

/-- Embedding of Python's `name.replace(".pdf", "")`: remove every
non-overlapping occurrence of `.pdf`, scanning left to right. -/
def stripPdfAll : List Char → List Char
  | '.' :: 'p' :: 'd' :: 'f' :: rest => stripPdfAll rest
  | c :: rest => c :: stripPdfAll rest
  | [] => []

/-- Embedding of the caller's
`get_smart_name(model, img) or uploaded_file.name.replace(".pdf", "")`:
a `None` result, and also an empty string (both falsy in Python), fall back
to the upload name with `.pdf` removed. -/
def newBaseName (response : Option (List Char)) (uploadName : List Char) :
    List Char :=
  match get_smart_name response with
  | some s => if s.isEmpty then stripPdfAll uploadName else s
  | none => stripPdfAll uploadName

/-- Reference fallback written from the spec's words: the original upload's
file name with its `.pdf` extension stripped, i.e. the four-character
suffix removed when present. -/
def stripPdfSuffixSpec (s : List Char) : List Char :=
  if List.isSuffixOf ['.', 'p', 'd', 'f'] s then s.take (s.length - 4) else s

/-- Counterexample to C9 as stated: for the upload name `a.pdf.pdf`, the
code's fallback removes every occurrence of `.pdf` and yields `a`, not the
extension-stripped `a.pdf`. -/
theorem fallback_not_suffix_strip_counterexample :
    ¬ (newBaseName none ['a', '.', 'p', 'd', 'f', '.', 'p', 'd', 'f'] =
        stripPdfSuffixSpec ['a', '.', 'p', 'd', 'f', '.', 'p', 'd', 'f']) := by
  decide

/-- C9 (amended): the sanitized AI-derived base name contains none of the
illegal characters, and whenever the AI naming call fails the base name is
the upload's name with every occurrence of `.pdf` removed. -/
theorem sanitized_name_and_fallback :
    (∀ (text : List Char) (c : Char), c ∈ illegalChars → c ∉ sanitizeName text) ∧
      (∀ name : List Char, newBaseName none name = stripPdfAll name) := by
  constructor
  · intro text c hc hmem
    rw [sanitizeName, List.mem_filter] at hmem
    simp only [List.contains_eq_any_beq, List.any_eq_true, beq_iff_eq,
      Bool.not_eq_true', Bool.not_eq_false', not_exists, not_and,
      List.any_eq_false] at hmem
    exact (hmem.2 c hc) rfl
  · intro name
    rfl

/-- Witness for the amended C9: the slash is illegal and is absent from the
sanitized form of a response containing it. -/
theorem sanitized_name_and_fallback_witness :
    '/' ∈ illegalChars ∧ '/' ∉ sanitizeName ['2', '/', '3'] :=
  ⟨by decide, sanitized_name_and_fallback.1 ['2', '/', '3'] '/' (by decide)⟩

end App
